import Mathlib

/-!
# Verification of the backtesting-and-VaR core (`src/backtesting_demo.py`)

Shallow embedding of the Python backtesting core: numeric values (`float`)
are modelled as exact rationals `ℚ`, Python `int` as `ℤ`/`ℕ`, Python dicts
as ordered association lists, and fallible Python arithmetic (division that
can raise `ZeroDivisionError`, out-of-range indexing) as `Except Unit`.
`math.sqrt` has no exact rational counterpart; every definition that uses it
takes the square-root operation as an explicit function parameter `sqrt`.
-/

namespace BacktestVaR

/-- Python `int(x)` applied to a rational: truncation toward zero. -/
def truncRat (q : ℚ) : ℤ := if 0 ≤ q then ⌊q⌋ else ⌈q⌉

/-- Python float division, which raises `ZeroDivisionError` on a zero
denominator; modelled in the `Except Unit` monad. -/
def pydiv (a b : ℚ) : Except Unit ℚ := if b = 0 then .error () else .ok (a / b)

/-- Python slice `l[a:]` with a possibly negative start index `a`
(a negative start counts from the end of the list). -/
def pySliceFrom (a : ℤ) (l : List α) : List α :=
  if 0 ≤ a then l.drop a.toNat else l.drop ((l.length : ℤ) + a).toNat

/-- Python slice `l[-p:]` for a natural `p` (the last `p` elements;
`p = 0` yields the whole list, as `l[-0:] = l[0:]`). -/
def lastSlice (p : ℕ) (l : List α) : List α :=
  if p = 0 then l else l.drop (l.length - p)

/-! ## Python dict model: ordered association lists

`dget` is `d[k]`/`k in d`, `dset` is `d[k] = v` (update in place when the
key exists, append otherwise), `derase` is `del d[k]`. -/

/-- Dict lookup `d.get(k)`. -/
def dget : List (String × α) → String → Option α
  | [], _ => none
  | kv :: rest, k => if kv.1 = k then some kv.2 else dget rest k

/-- Dict assignment `d[k] = v`: overwrite the existing binding in place,
else append a new binding at the end. -/
def dset : List (String × α) → String → α → List (String × α)
  | [], k, v => [(k, v)]
  | kv :: rest, k, v => if kv.1 = k then (k, v) :: rest else kv :: dset rest k v

/-- Dict deletion `del d[k]`. -/
def derase : List (String × α) → String → List (String × α)
  | [], _ => []
  | kv :: rest, k => if kv.1 = k then derase rest k else kv :: derase rest k

/-! ## Data model -/

/-- OHLC bar (`class OHLC`): symbol, date (as a day ordinal), prices, volume. -/
structure OHLC where
  symbol : String
  date : ℤ
  open_price : ℚ
  high : ℚ
  low : ℚ
  close : ℚ
  volume : ℤ
deriving DecidableEq

/-- A default bar value, used only to express `bars[-1]` on lists proven
non-empty. -/
def dummyOHLC : OHLC := ⟨"", 0, 0, 0, 0, 0, 0⟩

/-- Trading portfolio (`class Portfolio`): cash plus the two dicts
`positions : symbol → quantity` and `average_costs : symbol → average cost`. -/
structure Portfolio where
  cash : ℚ
  positions : List (String × ℤ)
  average_costs : List (String × ℚ)
deriving DecidableEq

/-- Python `Portfolio.__init__(initial_cash)`: empty position and cost maps. -/
def Portfolio.init (initial_cash : ℚ) : Portfolio :=
  { cash := initial_cash, positions := [], average_costs := [] }

/-- Python `Portfolio.execute_buy_order(symbol, quantity, price)`.
The Python body reads `self.average_costs[symbol]` only when
`symbol in self.positions`; under the portfolio invariant that key is then
present, so the checked dict access is modelled with `getD 0`. -/
def execute_buy_order (p : Portfolio) (symbol : String) (quantity : ℤ) (price : ℚ) :
    Portfolio :=
  let total_cost : ℚ := (quantity : ℚ) * price
  let cash' := p.cash - total_cost
  match dget p.positions symbol with
  | some current_qty =>
      let current_avg := (dget p.average_costs symbol).getD 0
      let total_value := (current_qty : ℚ) * current_avg + total_cost
      let new_qty := current_qty + quantity
      { cash := cash',
        positions := dset p.positions symbol new_qty,
        average_costs := dset p.average_costs symbol (total_value / (new_qty : ℚ)) }
  | none =>
      { cash := cash',
        positions := dset p.positions symbol quantity,
        average_costs := dset p.average_costs symbol price }

/-- Python `Portfolio.execute_sell_order(symbol, quantity, price)`: credit the
proceeds, then decrement the position; delete the symbol from both dicts
when the remaining quantity is ≤ 0. -/
def execute_sell_order (p : Portfolio) (symbol : String) (quantity : ℤ) (price : ℚ) :
    Portfolio :=
  let total_value : ℚ := (quantity : ℚ) * price
  let cash' := p.cash + total_value
  match dget p.positions symbol with
  | some current_qty =>
      let remaining := current_qty - quantity
      if remaining ≤ 0 then
        { cash := cash',
          positions := derase p.positions symbol,
          average_costs := derase p.average_costs symbol }
      else
        { cash := cash',
          positions := dset p.positions symbol remaining,
          average_costs := p.average_costs }
  | none => { p with cash := cash' }

/-- Python `Portfolio.get_portfolio_value(current_prices)`: cash plus the value of
every position whose symbol has a current price. -/
def get_portfolio_value (p : Portfolio) (current_prices : List (String × ℚ)) : ℚ :=
  p.positions.foldl
    (fun total kv =>
      match dget current_prices kv.1 with
      | some price => total + (kv.2 : ℚ) * price
      | none => total)
    p.cash

/-! ## VaRService -/

/-- Python `VaRService.historical_var(returns, confidence_level, portfolio_value)`:
empirical left-tail quantile of the sorted returns, negated and scaled. -/
def historical_var (returns : List ℚ) (confidence_level portfolio_value : ℚ) : ℚ :=
  if returns = [] ∨ portfolio_value ≤ 0 then 0
  else
    let sorted_returns := returns.insertionSort (· ≤ ·)
    let idx : ℤ := truncRat ((1 - confidence_level) * (returns.length : ℚ))
    let idx' : ℤ := max 0 (min ((returns.length : ℤ) - 1) idx)
    let percentile_return := sorted_returns.getD idx'.toNat 0
    Neg.neg percentile_return * portfolio_value

/-- The z-score table `{0.90: 1.28, 0.95: 1.65, 0.99: 2.33}` with default
`1.65` (`z_scores.get(confidence_level, 1.65)`). -/
def z_score (confidence_level : ℚ) : ℚ :=
  if confidence_level = 0.90 then 1.28
  else if confidence_level = 0.95 then 1.65
  else if confidence_level = 0.99 then 2.33
  else 1.65

/-- Python `VaRService.parametric_var(returns, confidence_level, portfolio_value)`:
z-score times the population standard deviation times portfolio value.
`math.sqrt` is the explicit parameter `sqrt`. -/
def parametric_var (sqrt : ℚ → ℚ) (returns : List ℚ)
    (confidence_level portfolio_value : ℚ) : ℚ :=
  if returns = [] ∨ portfolio_value ≤ 0 then 0
  else
    let mean := returns.sum / (returns.length : ℚ)
    let variance := (returns.map (fun r => (r - mean) ^ 2)).sum / (returns.length : ℚ)
    let std_dev := sqrt variance
    z_score confidence_level * std_dev * portfolio_value

/-- Population variance of a return series (divide by `N`, not `N - 1`),
as used by `parametric_var`. -/
def population_variance (returns : List ℚ) : ℚ :=
  (returns.map (fun r => (r - returns.sum / (returns.length : ℚ)) ^ 2)).sum /
    (returns.length : ℚ)

/-! ## SimpleMovingAverageStrategy -/

/-- Signal action (first component of the Python signal tuple). -/
inductive Action where
  | BUY
  | SELL
deriving DecidableEq

/-- A trading signal tuple `(action, symbol, quantity, price)`. -/
structure Signal where
  action : Action
  symbol : String
  quantity : ℤ
  price : ℚ
deriving DecidableEq

/-- Python `SimpleMovingAverageStrategy` state: configuration plus the mutable
`is_long` flag (two-state machine FLAT/LONG). -/
structure Strategy where
  short_period : ℕ
  long_period : ℕ
  position_size : ℤ
  is_long : Bool
deriving DecidableEq

/-- Python `calculate_ma(prices, period)`: mean of the last `period` closes, `0.0`
when there are fewer than `period` prices.  The division
`sum(prices[-period:]) / period` raises `ZeroDivisionError` when
`period = 0`, hence the `Except Unit` result. -/
def calculate_ma (prices : List ℚ) (period : ℕ) : Except Unit ℚ :=
  if prices.length < period then .ok 0
  else pydiv (lastSlice period prices).sum (period : ℚ)

/-- The value of `calculate_ma` for a positive period (division-safe form),
used to state properties of `generate_signals`. -/
def ma_value (prices : List ℚ) (period : ℕ) : ℚ :=
  if prices.length < period then 0
  else (lastSlice period prices).sum / (period : ℚ)

/-- Python `generate_signals(ohlc_data)`: emit at most one BUY/SELL signal from the
moving-average crossover state machine, returning the updated strategy
state.  `ohlc_data[-1]` is a checked list access. -/
def generate_signals (strat : Strategy) (ohlc_data : List OHLC) :
    Except Unit (List Signal × Strategy) :=
  if ohlc_data.length < strat.long_period + 1 then .ok ([], strat)
  else do
    let prices := ohlc_data.map (·.close)
    let short_ma ← calculate_ma prices strat.short_period
    let long_ma ← calculate_ma prices strat.long_period
    let prev_prices := prices.dropLast
    let prev_short_ma ← calculate_ma prev_prices strat.short_period
    let prev_long_ma ← calculate_ma prev_prices strat.long_period
    match ohlc_data.getLast? with
    | none => .error ()
    | some current_ohlc =>
      if (prev_short_ma ≤ prev_long_ma ∧ long_ma < short_ma) ∧ strat.is_long = false then
        .ok ([⟨.BUY, current_ohlc.symbol, strat.position_size, current_ohlc.close⟩],
             { strat with is_long := true })
      else if (prev_long_ma ≤ prev_short_ma ∧ short_ma < long_ma) ∧ strat.is_long = true then
        .ok ([⟨.SELL, current_ohlc.symbol, strat.position_size, current_ohlc.close⟩],
             { strat with is_long := false })
      else .ok ([], strat)

/-! ## MarketDataLoader and BacktestEngine

The synthetic random-walk generator (`generate_sample_data`, an excluded
collaborator driven by the process-wide seeded RNG) is modelled as an
explicit parameter `gen : String → List OHLC` supplying each asset's bar
sequence; likewise `math.sqrt` as `sqrt : ℚ → ℚ`. -/

/-- Python `MarketDataLoader.calculate_daily_returns(ohlc_data)`: element 0 is
`0.0`, element `i ≥ 1` is `(close[i] - close[i-1]) / close[i-1]` — an
unguarded division. -/
def calculate_daily_returns (ohlc_data : List OHLC) : Except Unit (List ℚ) := do
  let rest ← (ohlc_data.zip ohlc_data.tail).mapM
    (fun pc => pydiv (pc.2.close - pc.1.close) pc.1.close)
  return 0 :: rest

/-- One VaR record appended per day once the rolling window is full. -/
structure VarReport where
  date : ℤ
  portfolio_value : ℚ
  historical_var : ℚ
  parametric_var : ℚ
  historical_var_pct : ℚ
  parametric_var_pct : ℚ
  confidence_level : ℚ
  window_size : ℤ
deriving DecidableEq

/-- Mutable state threaded through the day loop of `run_backtest`. -/
structure LoopState where
  portfolio : Portfolio
  portfolio_values : List ℚ
  portfolio_returns : List ℚ
  var_reports : List VarReport
  strat : Strategy
deriving DecidableEq

/-- The final report dictionary returned by `run_backtest`. -/
structure BacktestReport where
  status : String
  initial_value : ℚ
  final_value : ℚ
  total_return_pct : ℚ
  max_drawdown_pct : ℚ
  sharpe_ratio : ℚ
  trading_days : ℕ
  portfolio_values : List ℚ
  portfolio_returns : List ℚ
  var_reports_count : ℕ
  avg_historical_var : ℚ
  avg_parametric_var : ℚ
  daily_var_reports : List VarReport
  final_cash : ℚ
  final_positions : List (String × ℤ)
  final_average_costs : List (String × ℚ)
deriving DecidableEq

/-- The body of the `for day in range(1, days)` loop of
`BacktestEngine.run_backtest`: one trading day.  `assets[0]` is a checked
list access. -/
def backtestStep (sqrt : ℚ → ℚ) (gen : String → List OHLC) (assets : List String)
    (start_date : ℤ) (var_window : ℤ) (confidence_level : ℚ)
    (st : LoopState) (day : ℕ) : Except Unit LoopState := do
  let current_prices : List (String × ℚ) :=
    assets.filterMap (fun a => ((gen a)[day]?).map (fun b => (a, b.close)))
  let primary_asset ← match assets with
    | [] => Except.error ()
    | a :: _ => Except.ok a
  let (pf1, strat1) ←
    if day < (gen primary_asset).length then do
      let historical_data := (gen primary_asset).take (day + 1)
      let (signals, strat') ← generate_signals st.strat historical_data
      let pf' := signals.foldl
        (fun pf sig =>
          match sig.action with
          | .BUY => execute_buy_order pf sig.symbol sig.quantity (sig.price * (1 + 0.001))
          | .SELL => execute_sell_order pf sig.symbol sig.quantity (sig.price * (1 - 0.001)))
        st.portfolio
      Except.ok (pf', strat')
    else Except.ok (st.portfolio, st.strat)
  let current_portfolio_value := get_portfolio_value pf1 current_prices
  let portfolio_values' := st.portfolio_values ++ [current_portfolio_value]
  let prev_value := st.portfolio_values.getLastD 0
  let portfolio_return :=
    if 0 < prev_value then (current_portfolio_value - prev_value) / prev_value else 0
  let portfolio_returns' := st.portfolio_returns ++ [portfolio_return]
  let var_reports' :=
    if var_window ≤ (portfolio_returns'.length : ℤ) then
      let rolling_returns := pySliceFrom (-var_window) portfolio_returns'
      let hv := historical_var rolling_returns confidence_level current_portfolio_value
      let pv := parametric_var sqrt rolling_returns confidence_level current_portfolio_value
      st.var_reports ++
        [{ date := start_date + (day : ℤ),
           portfolio_value := current_portfolio_value,
           historical_var := hv,
           parametric_var := pv,
           historical_var_pct :=
             if 0 < current_portfolio_value then hv / current_portfolio_value * 100 else 0,
           parametric_var_pct :=
             if 0 < current_portfolio_value then pv / current_portfolio_value * 100 else 0,
           confidence_level := confidence_level,
           window_size := var_window }]
    else st.var_reports
  Except.ok
    { portfolio := pf1,
      portfolio_values := portfolio_values',
      portfolio_returns := portfolio_returns',
      var_reports := var_reports',
      strat := strat1 }

/-- Python `BacktestEngine.run_backtest(assets, start_date, days, initial_cash,
strategy, var_window, confidence_level)`.  The per-asset daily-return
diagnostics (step 2 of the Python code, printed only) are evaluated for
their `ZeroDivisionError` effect; the `total_return` division by
`initial_cash` is unguarded, as in the source. -/
def run_backtest (sqrt : ℚ → ℚ) (gen : String → List OHLC) (assets : List String)
    (start_date : ℤ) (days : ℕ) (initial_cash : ℚ) (strategy : Strategy)
    (var_window : ℤ) (confidence_level : ℚ) : Except Unit BacktestReport := do
  let _ ← assets.mapM (fun a => calculate_daily_returns (gen a))
  let st0 : LoopState :=
    { portfolio := Portfolio.init initial_cash,
      portfolio_values := [initial_cash],
      portfolio_returns := [0],
      var_reports := [],
      strat := strategy }
  let stN ← (List.range' 1 (days - 1)).foldlM
    (backtestStep sqrt gen assets start_date var_window confidence_level) st0
  let final_value := stN.portfolio_values.getLastD 0
  let tr ← pydiv (final_value - initial_cash) initial_cash
  let total_return := tr * 100
  let dd := stN.portfolio_values.foldl
    (fun (acc : ℚ × ℚ) value =>
      let max_value := if acc.1 < value then value else acc.1
      let drawdown := if 0 < max_value then (max_value - value) / max_value else 0
      (max_value, if acc.2 < drawdown then drawdown else acc.2))
    (0, 0)
  let max_drawdown := dd.2
  let n := stN.portfolio_returns.length
  let avg_return :=
    if 1 < n then stN.portfolio_returns.tail.sum / ((n : ℚ) - 1) else 0
  let return_variance :=
    if 2 < n then
      (stN.portfolio_returns.tail.map (fun r => (r - avg_return) ^ 2)).sum / ((n : ℚ) - 1)
    else 0
  let volatility := sqrt return_variance
  let sharpe_ratio ←
    if 0 < volatility then pydiv (avg_return * 252) (volatility * sqrt 252)
    else Except.ok 0
  let avg_historical_var :=
    if stN.var_reports = [] then 0
    else (stN.var_reports.map (·.historical_var)).sum / (stN.var_reports.length : ℚ)
  let avg_parametric_var :=
    if stN.var_reports = [] then 0
    else (stN.var_reports.map (·.parametric_var)).sum / (stN.var_reports.length : ℚ)
  Except.ok
    { status := "SUCCESS",
      initial_value := initial_cash,
      final_value := final_value,
      total_return_pct := total_return,
      max_drawdown_pct := max_drawdown * 100,
      sharpe_ratio := sharpe_ratio,
      trading_days := days,
      portfolio_values := stN.portfolio_values,
      portfolio_returns := stN.portfolio_returns,
      var_reports_count := stN.var_reports.length,
      avg_historical_var := avg_historical_var,
      avg_parametric_var := avg_parametric_var,
      daily_var_reports :=
        if stN.var_reports = [] then [] else pySliceFrom (-5) stN.var_reports,
      final_cash := stN.portfolio.cash,
      final_positions := stN.portfolio.positions,
      final_average_costs := stN.portfolio.average_costs }

/-! ## Trade-operation sequences over a portfolio -/

/-- A buy or sell fill applied to the portfolio ledger. -/
inductive TradeOp where
  | buy (symbol : String) (quantity : ℤ) (price : ℚ)
  | sell (symbol : String) (quantity : ℤ) (price : ℚ)
deriving DecidableEq

/-- Apply one fill through the corresponding `Portfolio` method. -/
def applyOp (p : Portfolio) : TradeOp → Portfolio
  | .buy s q pr => execute_buy_order p s q pr
  | .sell s q pr => execute_sell_order p s q pr

/-- Apply a sequence of fills in order. -/
def applyOps (p : Portfolio) (ops : List TradeOp) : Portfolio :=
  ops.foldl applyOp p

/-- An operation with positive quantity and positive price. -/
def validOp : TradeOp → Prop
  | .buy _ q pr => 0 < q ∧ 0 < pr
  | .sell _ q pr => 0 < q ∧ 0 < pr

instance : DecidablePred validOp := fun op => by
  cases op <;> (dsimp [validOp]; infer_instance)

/-- The `Portfolio` data invariant: stored position quantities are strictly
positive and `average_costs` is keyed exactly by the open positions. -/
def PortfolioInv (p : Portfolio) : Prop :=
  (∀ s q, dget p.positions s = some q → 0 < q) ∧
  (∀ s, (dget p.positions s).isSome ↔ (dget p.average_costs s).isSome)

/-- A sequence of buys of one symbol, each `(quantity, fill_price)`. -/
def applyBuys (p : Portfolio) (symbol : String) (buys : List (ℤ × ℚ)) : Portfolio :=
  buys.foldl (fun acc qp => execute_buy_order acc symbol qp.1 qp.2) p

/-! ## Helper lemmas -/

theorem dget_dset_self (d : List (String × α)) (k : String) (v : α) :
    dget (dset d k v) k = some v := by
  induction d with
  | nil => simp [dget, dset]
  | cons kv rest ih =>
    by_cases h : kv.1 = k
    · simp [dset, h, dget]
    · simp [dset, h, dget, ih]

theorem dget_dset_ne (d : List (String × α)) (k k' : String) (v : α) (h : k ≠ k') :
    dget (dset d k v) k' = dget d k' := by
  induction d with
  | nil => simp [dget, dset, h]
  | cons kv rest ih =>
    by_cases hk : kv.1 = k
    · simp [dset, hk, dget, h]
    · by_cases hk' : kv.1 = k'
      · simp [dset, hk, dget, hk', h.symm]
      · simp [dset, hk, dget, hk', ih]

theorem dget_derase_self (d : List (String × α)) (k : String) :
    dget (derase d k) k = none := by
  induction d with
  | nil => simp [derase, dget]
  | cons kv rest ih =>
    by_cases h : kv.1 = k
    · simp [derase, h, ih]
    · simp [derase, h, dget, ih]

theorem dget_derase_ne (d : List (String × α)) (k k' : String) (h : k ≠ k') :
    dget (derase d k) k' = dget d k' := by
  induction d with
  | nil => simp [derase]

  | cons kv rest ih =>
    by_cases hk : kv.1 = k
    · simp [derase, hk, dget, h, ih]
    · simp [derase, hk, dget, ih]

theorem calculate_ma_pos (prices : List ℚ) (period : ℕ) (h : 0 < period) :
    calculate_ma prices period = .ok (ma_value prices period) := by
  unfold calculate_ma ma_value
  by_cases hlen : prices.length < period
  · simp [hlen]
  · have hper : (period : ℚ) ≠ 0 := by exact_mod_cast h.ne'
    simp [hlen, pydiv, hper]

theorem truncRat_mono {a b : ℚ} (h : a ≤ b) : truncRat a ≤ truncRat b := by
  unfold truncRat
  by_cases ha : 0 ≤ a
  · have hb : 0 ≤ b := le_trans ha h
    simp only [ha, hb, if_true]
    exact Int.floor_le_floor h
  · by_cases hb : 0 ≤ b
    · simp only [ha, hb, if_true, if_false]
      have h1 : ⌈a⌉ ≤ 0 := Int.ceil_le.mpr (by exact_mod_cast (le_of_not_le ha))
      have h2 : (0 : ℤ) ≤ ⌊b⌋ := Int.le_floor.mpr (by exact_mod_cast hb)
      omega
    · simp only [ha, hb, if_false]
      exact Int.ceil_le_ceil h

theorem clamp_truncRat_eq_clamp_floor (n1 : ℤ) (hn : 0 ≤ n1) (x : ℚ) :
    max 0 (min n1 (truncRat x)) = max 0 (min n1 ⌊x⌋) := by
  unfold truncRat
  by_cases hx : 0 ≤ x
  · simp [hx]
  · have hc : ⌈x⌉ ≤ 0 := Int.ceil_le.mpr (by exact_mod_cast (le_of_not_le hx))
    have hf : ⌊x⌋ ≤ 0 := le_trans (Int.floor_le_ceil x) hc
    simp only [hx, if_false]
    omega

/-! ## Claim theorems: VaRService -/

/-- C1: for every non-empty list of returns `R`, every confidence level `c`
and every portfolio value `V > 0`, `historical_var R c V = -S[i] * V` where
`S` is `R` sorted ascending and `i = ⌊(1-c)·|R|⌋` clamped to
`[0, |R|-1]` (Python's `int()` truncation agrees with the floor once
clamped). -/
theorem historical_var_quantile (R : List ℚ) (c V : ℚ) (hR : R ≠ []) (hV : 0 < V) :
    historical_var R c V =
      Neg.neg ((R.insertionSort (· ≤ ·)).getD
        (max 0 (min ((R.length : ℤ) - 1) ⌊(1 - c) * (R.length : ℚ)⌋)).toNat 0) * V := by
  have hcond : ¬(R = [] ∨ V ≤ 0) := by
    rintro (he | hle)
    · exact hR he
    · exact absurd hV (not_lt.mpr hle)
  have hn : (0 : ℤ) ≤ (R.length : ℤ) - 1 := by
    have h1 : 0 < R.length := List.length_pos.mpr hR
    omega
  simp only [historical_var, if_neg hcond]
  rw [clamp_truncRat_eq_clamp_floor _ hn]

/-- Witness for C1 at `R = [0.01, -0.02, 0.03]`, `c = 0.95`, `V = 100`:
the sorted list is `[-0.02, 0.01, 0.03]`, the clamped index is `0`, and the
result is `2`. -/
theorem historical_var_quantile_witness :
    historical_var [0.01, -0.02, 0.03] 0.95 100 = 2 :=
  (historical_var_quantile [0.01, -0.02, 0.03] 0.95 100 (by simp) (by norm_num)).trans
    (by norm_num [List.insertionSort, List.orderedInsert])

/-- C2: for every non-empty `R` and `V > 0`, `parametric_var` equals
`z(c) * population_stdev(R) * V` where the population variance divides by
`N`, and the z lookup is exactly `0.90 ↦ 1.28`, `0.95 ↦ 1.65`,
`0.99 ↦ 2.33` with default `1.65` for any other confidence level
(e.g. `0.975 ↦ 1.65`). -/
theorem parametric_var_spec :
    (∀ (sqrt : ℚ → ℚ) (R : List ℚ) (c V : ℚ), R ≠ [] → 0 < V →
      parametric_var sqrt R c V = z_score c * sqrt (population_variance R) * V) ∧
    z_score 0.90 = 1.28 ∧ z_score 0.95 = 1.65 ∧ z_score 0.99 = 2.33 ∧
    z_score 0.975 = 1.65 ∧
    (∀ c : ℚ, c ≠ 0.90 → c ≠ 0.95 → c ≠ 0.99 → z_score c = 1.65) := by
  refine ⟨?_, by norm_num [z_score], by norm_num [z_score], by norm_num [z_score],
    by norm_num [z_score], ?_⟩
  · intro sqrt R c V hR hV
    have hcond : ¬(R = [] ∨ V ≤ 0) := by
      rintro (he | hle)
      · exact hR he
      · exact absurd hV (not_lt.mpr hle)
    simp only [parametric_var, if_neg hcond, population_variance]
  · intro c h90 h95 h99
    simp only [z_score, if_neg h90, if_neg h95, if_neg h99]

/-- Witness for C2 at `sqrt = id`, `R = [0.01, 0.03]`, `c = 0.95`,
`V = 100`: the population variance is `0.0001`, so the result is
`1.65 * 0.0001 * 100 = 0.0165`. -/
theorem parametric_var_spec_witness :
    parametric_var id [0.01, 0.03] 0.95 100 = 0.0165 :=
  (parametric_var_spec.1 id [0.01, 0.03] 0.95 100 (by simp) (by norm_num)).trans
    (by norm_num [z_score, population_variance])

/-- C8: for a fixed non-empty window with more than one distinct value and
fixed `V > 0`, `historical_var` is monotonically non-decreasing in the
confidence level on `[0, 1]`. -/
theorem historical_var_mono_confidence (R : List ℚ) (V c₁ c₂ : ℚ) (hR : R ≠ [])
    (hdist : ∃ x ∈ R, ∃ y ∈ R, x ≠ y) (hV : 0 < V)
    (h0 : 0 ≤ c₁) (h12 : c₁ ≤ c₂) (h1 : c₂ ≤ 1) :
    historical_var R c₁ V ≤ historical_var R c₂ V := by
  have hcond : ¬(R = [] ∨ V ≤ 0) := by
    rintro (he | hle)
    · exact hR he
    · exact absurd hV (not_lt.mpr hle)
  have hlen : 0 < R.length := List.length_pos.mpr hR
  simp only [historical_var, if_neg hcond]
  set S := R.insertionSort (· ≤ ·) with hS
  have hSlen : S.length = R.length := List.length_insertionSort (· ≤ ·) R
  have hmul : (1 - c₂) * (R.length : ℚ) ≤ (1 - c₁) * (R.length : ℚ) := by
    apply mul_le_mul_of_nonneg_right (by linarith) (by positivity)
  have htr := truncRat_mono hmul
  set t₁ := truncRat ((1 - c₁) * (R.length : ℚ)) with ht₁
  set t₂ := truncRat ((1 - c₂) * (R.length : ℚ)) with ht₂
  set i₁ : ℤ := max 0 (min ((R.length : ℤ) - 1) t₁) with hi₁
  set i₂ : ℤ := max 0 (min ((R.length : ℤ) - 1) t₂) with hi₂
  have hile : i₂ ≤ i₁ := by omega
  have hb₁ : i₁.toNat < S.length := by
    rw [hSlen]
    omega
  have hb₂ : i₂.toNat < S.length := by
    rw [hSlen]
    omega
  have hsorted : S.Sorted (· ≤ ·) := List.sorted_insertionSort (· ≤ ·) R
  have hget : S.getD i₂.toNat 0 ≤ S.getD i₁.toNat 0 := by
    rw [List.getD_eq_getElem?_getD, List.getD_eq_getElem?_getD,
        List.getElem?_eq_getElem hb₁, List.getElem?_eq_getElem hb₂]
    exact hsorted.rel_get_of_le (a := ⟨i₂.toNat, hb₂⟩) (b := ⟨i₁.toNat, hb₁⟩)
      (by exact Fin.mk_le_mk.mpr (Int.toNat_le_toNat hile))
  have := mul_le_mul_of_nonneg_right (neg_le_neg hget) hV.le
  simpa using this

/-- Witness for C8 at `R = [0.05, -0.01]`, `c₁ = 0.5`, `c₂ = 0.95`,
`V = 100`: `historical_var` rises from `-5` to `1`. -/
theorem historical_var_mono_confidence_witness :
    historical_var [0.05, -0.01] 0.5 100 ≤ historical_var [0.05, -0.01] 0.95 100 :=
  historical_var_mono_confidence [0.05, -0.01] 100 0.5 0.95 (by simp)
    ⟨0.05, by simp, -0.01, by simp, by norm_num⟩ (by norm_num) (by norm_num)
    (by norm_num) (by norm_num)

/-! ## Claim theorems: Portfolio -/

theorem buy_lookup_some (P : Portfolio) (s : String) (q q0 : ℤ) (pr a0 : ℚ)
    (hlook : dget P.positions s = some q0) (havg : dget P.average_costs s = some a0) :
    (execute_buy_order P s q pr).positions = dset P.positions s (q0 + q) ∧
    (execute_buy_order P s q pr).average_costs =
      dset P.average_costs s (((q0 : ℚ) * a0 + (q : ℚ) * pr) / (((q0 + q : ℤ)) : ℚ)) := by
  simp [execute_buy_order, hlook, havg]

theorem buy_lookup_none (P : Portfolio) (s : String) (q : ℤ) (pr : ℚ)
    (hlook : dget P.positions s = none) :
    (execute_buy_order P s q pr).positions = dset P.positions s q ∧
    (execute_buy_order P s q pr).average_costs = dset P.average_costs s pr := by
  simp [execute_buy_order, hlook]

theorem applyBuys_lookup (s : String) (buys : List (ℤ × ℚ)) :
    ∀ (P : Portfolio) (q0 : ℤ) (a0 : ℚ), 0 < q0 → (∀ qp ∈ buys, 0 < qp.1) →
      dget P.positions s = some q0 → dget P.average_costs s = some a0 →
      dget (applyBuys P s buys).positions s = some (q0 + (buys.map Prod.fst).sum) ∧
      dget (applyBuys P s buys).average_costs s =
        some (((q0 : ℚ) * a0 + (buys.map (fun qp => (qp.1 : ℚ) * qp.2)).sum) /
              ((q0 : ℚ) + (buys.map (fun qp => (qp.1 : ℚ))).sum)) := by
  induction buys with
  | nil =>
    intro P q0 a0 hq0 _ hlook havg
    have hne : (q0 : ℚ) ≠ 0 := by exact_mod_cast hq0.ne'
    refine ⟨by simpa [applyBuys] using hlook, ?_⟩
    rw [show applyBuys P s [] = P from rfl, havg]
    simp [mul_div_assoc, mul_div_cancel_left₀ _ hne]
  | cons qp rest ih =>
    intro P q0 a0 hq0 hall hlook havg
    obtain ⟨hq, -⟩ := List.forall_mem_cons.mp hall
    set P1 := execute_buy_order P s qp.1 qp.2 with hP1
    obtain ⟨hpos1, havg1⟩ := buy_lookup_some P s qp.1 q0 qp.2 a0 hlook havg
    have hstep : applyBuys P s (qp :: rest) = applyBuys P1 s rest := rfl
    have hq0' : 0 < q0 + qp.1 := by omega
    have hne' : ((q0 + qp.1 : ℤ) : ℚ) ≠ 0 := by exact_mod_cast hq0'.ne'
    have hlook1 : dget P1.positions s = some (q0 + qp.1) := by
      rw [hP1, hpos1, dget_dset_self]
    have havg1' : dget P1.average_costs s =
        some (((q0 : ℚ) * a0 + (qp.1 : ℚ) * qp.2) / (((q0 + qp.1 : ℤ)) : ℚ)) := by
      rw [hP1, havg1, dget_dset_self]
    obtain ⟨hpos2, havg2⟩ := ih P1 (q0 + qp.1) _ hq0'
      (List.forall_mem_cons.mp hall).2 hlook1 havg1'
    rw [hstep]
    constructor
    · rw [hpos2]
      simp [add_assoc]
    · rw [havg2]
      congr 1
      have hsum : (0 : ℚ) ≤ (rest.map (fun qp => (qp.1 : ℚ))).sum := by
        apply List.sum_nonneg
        intro x hx
        obtain ⟨qp', hqp', rfl⟩ := List.mem_map.mp hx
        have := (List.forall_mem_cons.mp hall).2 qp' hqp'
        exact_mod_cast this.le
      have hcast : (0 : ℚ) < ((q0 + qp.1 : ℤ) : ℚ) := by exact_mod_cast hq0'
      have hd1 : ((q0 + qp.1 : ℤ) : ℚ) + (rest.map (fun qp => (qp.1 : ℚ))).sum ≠ 0 := by
        linarith
      have hd2 : (q0 : ℚ) + ((qp :: rest).map (fun qp => (qp.1 : ℚ))).sum ≠ 0 := by
        rw [List.map_cons, List.sum_cons]
        push_cast at hcast
        linarith
      rw [List.map_cons, List.sum_cons, List.map_cons, List.sum_cons]
      field_simp
      ring

/-- C4: a buy with positive quantity and price deducts `quantity * price`
from cash (no margin check, never fails), sets the average cost to the
weighted average `(q0*a0 + q*p)/(q0+q)` when a position exists and to the
fill price otherwise, and after any non-empty sequence of such buys on a
previously absent symbol the stored average cost is the true weighted
average entry price `Σ qᵢpᵢ / Σ qᵢ`. -/
theorem execute_buy_order_spec :
    (∀ (P : Portfolio) (s : String) (q : ℤ) (pr : ℚ), 0 < q → 0 < pr →
      (execute_buy_order P s q pr).cash = P.cash - (q : ℚ) * pr) ∧
    (∀ (P : Portfolio) (s : String) (q q0 : ℤ) (pr a0 : ℚ), 0 < q → 0 < pr → 0 < q0 →
      dget P.positions s = some q0 → dget P.average_costs s = some a0 →
      dget (execute_buy_order P s q pr).positions s = some (q0 + q) ∧
      dget (execute_buy_order P s q pr).average_costs s =
        some (((q0 : ℚ) * a0 + (q : ℚ) * pr) / ((q0 : ℚ) + (q : ℚ)))) ∧
    (∀ (P : Portfolio) (s : String) (q : ℤ) (pr : ℚ), 0 < q → 0 < pr →
      dget P.positions s = none →
      dget (execute_buy_order P s q pr).positions s = some q ∧
      dget (execute_buy_order P s q pr).average_costs s = some pr) ∧
    (∀ (P : Portfolio) (s : String) (buys : List (ℤ × ℚ)),
      dget P.positions s = none → buys ≠ [] → (∀ qp ∈ buys, 0 < qp.1) →
      dget (applyBuys P s buys).positions s = some ((buys.map Prod.fst).sum) ∧
      dget (applyBuys P s buys).average_costs s =
        some ((buys.map (fun qp => (qp.1 : ℚ) * qp.2)).sum /
              (buys.map (fun qp => (qp.1 : ℚ))).sum)) := by
  refine ⟨?_, ?_, ?_, ?_⟩
  · intro P s q pr _ _
    cases hlook : dget P.positions s <;> simp [execute_buy_order, hlook]
  · intro P s q q0 pr a0 _ _ _ hlook havg
    obtain ⟨hpos, havg'⟩ := buy_lookup_some P s q q0 pr a0 hlook havg
    rw [hpos, havg', dget_dset_self, dget_dset_self]
    constructor
    · rfl
    · push_cast
      rfl
  · intro P s q pr _ _ hlook
    obtain ⟨hpos, havg'⟩ := buy_lookup_none P s q pr hlook
    rw [hpos, havg', dget_dset_self, dget_dset_self]
    exact ⟨rfl, rfl⟩
  · intro P s buys hlook hne hall
    cases buys with
    | nil => exact absurd rfl hne
    | cons qp rest =>
      obtain ⟨hq, hrest⟩ := List.forall_mem_cons.mp hall
      obtain ⟨hpos1, havg1⟩ := buy_lookup_none P s qp.1 qp.2 hlook
      have hstep : applyBuys P s (qp :: rest) =
          applyBuys (execute_buy_order P s qp.1 qp.2) s rest := rfl
      have hlook1 : dget (execute_buy_order P s qp.1 qp.2).positions s = some qp.1 := by
        rw [hpos1, dget_dset_self]
      have havg1' : dget (execute_buy_order P s qp.1 qp.2).average_costs s = some qp.2 := by
        rw [havg1, dget_dset_self]
      obtain ⟨hpos2, havg2⟩ := applyBuys_lookup s rest _ qp.1 qp.2 hq hrest hlook1 havg1'
      rw [hstep, hpos2, havg2]
      exact ⟨by simp, by simp⟩

/-- Witness for C4 (sequence part) at two buys `(2, 10)` and `(2, 20)` of
symbol `"A"` from a fresh portfolio: the stored average cost is the
weighted average `(2·10 + 2·20)/4 = 15`. -/
theorem execute_buy_order_spec_witness :
    dget (applyBuys (Portfolio.init 0) "A" [(2, 10), (2, 20)]).average_costs "A" =
      some 15 :=
  ((execute_buy_order_spec.2.2.2 (Portfolio.init 0) "A" [(2, 10), (2, 20)]
    (by simp [Portfolio.init, dget]) (by simp) (by decide)).2).trans (by norm_num)

/-- C5: a sell with positive quantity on a symbol with an open position adds
`quantity * price` to cash and decrements the position, leaving
`average_costs` untouched on a partial sell; when the resulting quantity is
≤ 0 the symbol is removed from both maps (over-sells are truncated, no
short position). -/
theorem execute_sell_order_spec (P : Portfolio) (s : String) (q q0 : ℤ) (pr : ℚ)
    (hq : 0 < q) (hlook : dget P.positions s = some q0) :
    (execute_sell_order P s q pr).cash = P.cash + (q : ℚ) * pr ∧
    (0 < q0 - q →
      dget (execute_sell_order P s q pr).positions s = some (q0 - q) ∧
      (execute_sell_order P s q pr).average_costs = P.average_costs) ∧
    (q0 - q ≤ 0 →
      dget (execute_sell_order P s q pr).positions s = none ∧
      dget (execute_sell_order P s q pr).average_costs s = none) := by
  by_cases hrem : q0 - q ≤ 0
  · refine ⟨by simp [execute_sell_order, hlook, hrem], fun h => absurd hrem (by omega), ?_⟩
    intro _
    simp [execute_sell_order, hlook, hrem, dget_derase_self]
  · refine ⟨by simp [execute_sell_order, hlook, hrem], ?_, fun h => absurd h hrem⟩
    intro _
    simp [execute_sell_order, hlook, hrem, dget_dset_self]

/-- Witness for C5 at a partial sell of 2 out of 5 shares. -/
theorem execute_sell_order_spec_witness :
    (execute_sell_order ⟨0, [("A", 5)], [("A", 10)]⟩ "A" 2 11).cash =
      (0 : ℚ) + (2 : ℚ) * 11 :=
  (execute_sell_order_spec ⟨0, [("A", 5)], [("A", 10)]⟩ "A" 2 5 11 (by decide)
    (by simp [dget])).1

/-- C10: a sell with positive quantity on a symbol with no open position
still credits `quantity * price` to cash while leaving `positions` and
`average_costs` completely unchanged — no error, no negative position. -/
theorem execute_sell_order_no_position (P : Portfolio) (s : String) (q : ℤ) (pr : ℚ)
    (hq : 0 < q) (hlook : dget P.positions s = none) :
    (execute_sell_order P s q pr).cash = P.cash + (q : ℚ) * pr ∧
    (execute_sell_order P s q pr).positions = P.positions ∧
    (execute_sell_order P s q pr).average_costs = P.average_costs := by
  simp [execute_sell_order, hlook]

/-- Witness for C10: selling 3 shares of an absent symbol. -/
theorem execute_sell_order_no_position_witness :
    (execute_sell_order (Portfolio.init 100) "B" 3 7).cash = (100 : ℚ) + (3 : ℚ) * 7 :=
  (execute_sell_order_no_position (Portfolio.init 100) "B" 3 7 (by decide)
    (by simp [Portfolio.init, dget])).1

theorem portfolioInv_init (c : ℚ) : PortfolioInv (Portfolio.init c) := by
  constructor
  · intro s q h
    simp [Portfolio.init, dget] at h
  · intro s
    simp [Portfolio.init, dget]

theorem portfolioInv_applyOp (P : Portfolio) (op : TradeOp) (hP : PortfolioInv P)
    (hop : validOp op) : PortfolioInv (applyOp P op) := by
  obtain ⟨hpos, hdom⟩ := hP
  cases op with
  | buy s q pr =>
    obtain ⟨hq, -⟩ := hop
    cases hlook : dget P.positions s with
    | none =>
      have h1 : (applyOp P (TradeOp.buy s q pr)).positions = dset P.positions s q :=
        (buy_lookup_none P s q pr hlook).1
      have h2 : (applyOp P (TradeOp.buy s q pr)).average_costs =
          dset P.average_costs s pr :=
        (buy_lookup_none P s q pr hlook).2
      constructor
      · intro s' q' h
        by_cases hs : s = s'
        · subst hs
          rw [h1, dget_dset_self] at h
          have hq' : q = q' := by injection h
          omega
        · rw [h1, dget_dset_ne _ _ _ _ hs] at h
          exact hpos s' q' h
      · intro s'
        by_cases hs : s = s'
        · subst hs
          rw [h1, h2, dget_dset_self, dget_dset_self]
          simp
        · rw [h1, h2, dget_dset_ne _ _ _ _ hs, dget_dset_ne _ _ _ _ hs]
          exact hdom s'
    | some q0 =>
      have havg : ∃ a0, dget P.average_costs s = some a0 := by
        have hsome := (hdom s).mp (by rw [hlook]; rfl)
        cases h : dget P.average_costs s with
        | none => rw [h] at hsome; exact absurd hsome (by simp)
        | some a0 => exact ⟨a0, rfl⟩
      obtain ⟨a0, ha0⟩ := havg
      have hq0 : 0 < q0 := hpos s q0 hlook
      have h1 : (applyOp P (TradeOp.buy s q pr)).positions =
          dset P.positions s (q0 + q) :=
        (buy_lookup_some P s q q0 pr a0 hlook ha0).1
      have h2 : (applyOp P (TradeOp.buy s q pr)).average_costs =
          dset P.average_costs s
            (((q0 : ℚ) * a0 + (q : ℚ) * pr) / (((q0 + q : ℤ)) : ℚ)) :=
        (buy_lookup_some P s q q0 pr a0 hlook ha0).2
      constructor
      · intro s' q' h
        by_cases hs : s = s'
        · subst hs
          rw [h1, dget_dset_self] at h
          have hq' : q0 + q = q' := by injection h
          omega
        · rw [h1, dget_dset_ne _ _ _ _ hs] at h
          exact hpos s' q' h
      · intro s'
        by_cases hs : s = s'
        · subst hs
          rw [h1, h2, dget_dset_self, dget_dset_self]
          simp
        · rw [h1, h2, dget_dset_ne _ _ _ _ hs, dget_dset_ne _ _ _ _ hs]
          exact hdom s'
  | sell s q pr =>
    obtain ⟨hq, -⟩ := hop
    cases hlook : dget P.positions s with
    | none =>
      have h1 : (applyOp P (TradeOp.sell s q pr)).positions = P.positions := by
        simp [applyOp, execute_sell_order, hlook]
      have h2 : (applyOp P (TradeOp.sell s q pr)).average_costs = P.average_costs := by
        simp [applyOp, execute_sell_order, hlook]
      constructor
      · intro s' q' h
        rw [h1] at h
        exact hpos s' q' h
      · intro s'
        rw [h1, h2]
        exact hdom s'
    | some q0 =>
      by_cases hrem : q0 - q ≤ 0
      · have h1 : (applyOp P (TradeOp.sell s q pr)).positions =
            derase P.positions s := by
          simp [applyOp, execute_sell_order, hlook, hrem]
        have h2 : (applyOp P (TradeOp.sell s q pr)).average_costs =
            derase P.average_costs s := by
          simp [applyOp, execute_sell_order, hlook, hrem]
        constructor
        · intro s' q' h
          by_cases hs : s = s'
          · subst hs
            rw [h1, dget_derase_self] at h
            exact absurd h (by simp)
          · rw [h1, dget_derase_ne _ _ _ hs] at h
            exact hpos s' q' h
        · intro s'
          by_cases hs : s = s'
          · subst hs
            rw [h1, h2, dget_derase_self, dget_derase_self]
            exact Iff.rfl
          · rw [h1, h2, dget_derase_ne _ _ _ hs, dget_derase_ne _ _ _ hs]
            exact hdom s'
      · have h1 : (applyOp P (TradeOp.sell s q pr)).positions =
            dset P.positions s (q0 - q) := by
          simp [applyOp, execute_sell_order, hlook, hrem]
        have h2 : (applyOp P (TradeOp.sell s q pr)).average_costs =
            P.average_costs := by
          simp [applyOp, execute_sell_order, hlook, hrem]
        constructor
        · intro s' q' h
          by_cases hs : s = s'
          · subst hs
            rw [h1, dget_dset_self] at h
            have hq' : q0 - q = q' := by injection h
            omega
          · rw [h1, dget_dset_ne _ _ _ _ hs] at h
            exact hpos s' q' h
        · intro s'
          by_cases hs : s = s'
          · subst hs
            rw [h1, h2, dget_dset_self]
            have hsome : (dget P.average_costs s).isSome :=
              (hdom s).mp (by rw [hlook]; rfl)
            simp [hsome]
          · rw [h1, h2, dget_dset_ne _ _ _ _ hs]
            exact hdom s'

theorem portfolioInv_applyOps (ops : List TradeOp) :
    ∀ P : Portfolio, PortfolioInv P → (∀ op ∈ ops, validOp op) →
      PortfolioInv (applyOps P ops) := by
  induction ops with
  | nil => intro P hP _; exact hP
  | cons op rest ih =>
    intro P hP hall
    obtain ⟨hop, hrest⟩ := List.forall_mem_cons.mp hall
    exact ih (applyOp P op) (portfolioInv_applyOp P op hP hop) hrest

/-- C6: starting from a fresh portfolio, under every sequence of buys and
sells with positive quantities and prices, a symbol is present in
`positions` iff its quantity is non-zero, and `average_costs` is keyed
exactly by the symbols with an open position. -/
theorem portfolio_invariant (cash : ℚ) (ops : List TradeOp)
    (hops : ∀ op ∈ ops, validOp op) :
    (∀ s, (dget (applyOps (Portfolio.init cash) ops).positions s).isSome ↔
          (dget (applyOps (Portfolio.init cash) ops).positions s).getD 0 ≠ 0) ∧
    (∀ s, (dget (applyOps (Portfolio.init cash) ops).average_costs s).isSome ↔
          (dget (applyOps (Portfolio.init cash) ops).positions s).isSome) := by
  obtain ⟨hpos, hdom⟩ := portfolioInv_applyOps ops _ (portfolioInv_init cash) hops
  constructor
  · intro s
    cases h : dget (applyOps (Portfolio.init cash) ops).positions s with
    | none => simp
    | some q =>
      have := hpos s q h
      simp
      omega
  · intro s
    exact (hdom s).symm

/-- Witness for C6 after a buy of 5 then a sell of 2 shares of `"A"`. -/
theorem portfolio_invariant_witness :
    (dget (applyOps (Portfolio.init 1000)
        [TradeOp.buy "A" 5 10, TradeOp.sell "A" 2 11]).positions "A").isSome ↔
    (dget (applyOps (Portfolio.init 1000)
        [TradeOp.buy "A" 5 10, TradeOp.sell "A" 2 11]).positions "A").getD 0 ≠ 0 :=
  (portfolio_invariant 1000 [TradeOp.buy "A" 5 10, TradeOp.sell "A" 2 11]
    (by
      intro op hop
      simp only [List.mem_cons, List.not_mem_nil, or_false] at hop
      rcases hop with rfl | rfl <;> exact ⟨by norm_num, by norm_num⟩)).1 "A"

/-! ## Claim theorems: SimpleMovingAverageStrategy -/

theorem bind_ok {α β : Type} (a : α) (f : α → Except Unit β) :
    (Except.ok a : Except Unit α) >>= f = f a := rfl

/-- Counterexample to C3 as stated over every strategy state: with
`short_period = 0` the moving-average computation divides by zero
(`sum(prices[-0:]) / 0` raises `ZeroDivisionError` in Python), so
`generate_signals` does not return an (empty or one-element) signal list
once the warm-up guard passes. -/
theorem generate_signals_zero_period_error :
    generate_signals ⟨0, 1, 1, false⟩
      [⟨"A", 0, 0, 0, 0, 10, 0⟩, ⟨"A", 1, 0, 0, 0, 9, 0⟩] = .error () := rfl

/-- C3 (amended: strategies with positive short and long periods, as any
run configures): `generate_signals` emits no signal when
`len(bar_history) < long_period + 1`; otherwise it emits exactly one BUY
for `position_size` shares at today's close on a strict bullish crossover
while flat, exactly one SELL at today's close on a strict bearish
crossover while long, and nothing in every other case (ties emit
nothing). -/
theorem generate_signals_spec (strat : Strategy) (bars : List OHLC)
    (hshort : 0 < strat.short_period) (hlong : 0 < strat.long_period) :
    (bars.length < strat.long_period + 1 →
      generate_signals strat bars = .ok ([], strat)) ∧
    (strat.long_period + 1 ≤ bars.length →
      ∃ last, bars.getLast? = some last ∧
        ((ma_value ((bars.map (·.close)).dropLast) strat.short_period ≤
            ma_value ((bars.map (·.close)).dropLast) strat.long_period ∧
          ma_value (bars.map (·.close)) strat.long_period <
            ma_value (bars.map (·.close)) strat.short_period) ∧
          strat.is_long = false →
          generate_signals strat bars =
            .ok ([⟨.BUY, last.symbol, strat.position_size, last.close⟩],
                 { strat with is_long := true })) ∧
        ((ma_value ((bars.map (·.close)).dropLast) strat.long_period ≤
            ma_value ((bars.map (·.close)).dropLast) strat.short_period ∧
          ma_value (bars.map (·.close)) strat.short_period <
            ma_value (bars.map (·.close)) strat.long_period) ∧
          strat.is_long = true →
          generate_signals strat bars =
            .ok ([⟨.SELL, last.symbol, strat.position_size, last.close⟩],
                 { strat with is_long := false })) ∧
        (¬((ma_value ((bars.map (·.close)).dropLast) strat.short_period ≤
              ma_value ((bars.map (·.close)).dropLast) strat.long_period ∧
            ma_value (bars.map (·.close)) strat.long_period <
              ma_value (bars.map (·.close)) strat.short_period) ∧
            strat.is_long = false) →
         ¬((ma_value ((bars.map (·.close)).dropLast) strat.long_period ≤
              ma_value ((bars.map (·.close)).dropLast) strat.short_period ∧
            ma_value (bars.map (·.close)) strat.short_period <
              ma_value (bars.map (·.close)) strat.long_period) ∧
            strat.is_long = true) →
          generate_signals strat bars = .ok ([], strat))) := by
  constructor
  · intro h
    simp [generate_signals, h]
  · intro h
    have hguard : ¬(bars.length < strat.long_period + 1) := by omega
    have hne : bars ≠ [] := by
      have hpos : 0 < bars.length := by omega
      exact List.length_pos.mp hpos
    refine ⟨bars.getLast hne, List.getLast?_eq_getLast_of_ne_nil hne, ?_, ?_, ?_⟩
    · intro hcond
      simp only [generate_signals, if_neg hguard,
        calculate_ma_pos _ _ hshort, calculate_ma_pos _ _ hlong, bind_ok,
        List.getLast?_eq_getLast_of_ne_nil hne]
      rw [if_pos hcond]
    · intro hcond
      have hnot1 : ¬((ma_value ((bars.map (·.close)).dropLast) strat.short_period ≤
            ma_value ((bars.map (·.close)).dropLast) strat.long_period ∧
          ma_value (bars.map (·.close)) strat.long_period <
            ma_value (bars.map (·.close)) strat.short_period) ∧
          strat.is_long = false) := by
        rintro ⟨⟨-, h2⟩, -⟩
        exact absurd hcond.1.2 (lt_asymm h2)
      simp only [generate_signals, if_neg hguard,
        calculate_ma_pos _ _ hshort, calculate_ma_pos _ _ hlong, bind_ok,
        List.getLast?_eq_getLast_of_ne_nil hne]
      rw [if_neg hnot1, if_pos hcond]
    · intro h1 h2
      simp only [generate_signals, if_neg hguard,
        calculate_ma_pos _ _ hshort, calculate_ma_pos _ _ hlong, bind_ok,
        List.getLast?_eq_getLast_of_ne_nil hne]
      rw [if_neg h1, if_neg h2]

/-- Witness for C3 at an empty bar history: no signal is emitted during
warm-up. -/
theorem generate_signals_spec_witness :
    generate_signals ⟨1, 2, 100, false⟩ [] = .ok ([], ⟨1, 2, 100, false⟩) :=
  (generate_signals_spec ⟨1, 2, 100, false⟩ [] (by norm_num) (by norm_num)).1 (by simp)

/-! ## Claim theorems: BacktestEngine -/

theorem mapM_ok {α β : Type} (f : α → Except Unit β) :
    ∀ l : List α, (∀ a ∈ l, ∃ b, f a = .ok b) → ∃ bs, l.mapM f = .ok bs := by
  intro l
  induction l with
  | nil => intro _; exact ⟨[], rfl⟩
  | cons a rest ih =>
    intro h
    obtain ⟨b, hb⟩ := h a (List.mem_cons_self a rest)
    obtain ⟨bs, hbs⟩ := ih (fun x hx => h x (List.mem_cons_of_mem a hx))
    refine ⟨b :: bs, ?_⟩
    rw [List.mapM_cons, hb, bind_ok, hbs, bind_ok]
    rfl

theorem calculate_daily_returns_ok (bars : List OHLC)
    (h : ∀ b ∈ bars, b.close ≠ 0) :
    ∃ rs, calculate_daily_returns bars = .ok rs := by
  obtain ⟨rest, hrest⟩ := mapM_ok
    (fun pc : OHLC × OHLC => pydiv (pc.2.close - pc.1.close) pc.1.close)
    (bars.zip bars.tail)
    (by
      rintro ⟨b1, b2⟩ hmem
      have hb1 : b1 ∈ bars := (List.of_mem_zip hmem).1
      refine ⟨(b2.close - b1.close) / b1.close, ?_⟩
      simp [pydiv, h b1 hb1])
  refine ⟨0 :: rest, ?_⟩
  simp only [calculate_daily_returns]
  rw [hrest, bind_ok]
  rfl

theorem generate_signals_ok (strat : Strategy) (bars : List OHLC)
    (hshort : 0 < strat.short_period) (hlong : 0 < strat.long_period) :
    ∃ out, generate_signals strat bars = .ok out ∧
      out.2.short_period = strat.short_period ∧
      out.2.long_period = strat.long_period := by
  by_cases hg : bars.length < strat.long_period + 1
  · exact ⟨([], strat), by simp [generate_signals, hg], rfl, rfl⟩
  · have hne : bars ≠ [] := by
      have hpos : 0 < bars.length := by omega
      exact List.length_pos.mp hpos
    simp only [generate_signals, if_neg hg, calculate_ma_pos _ _ hshort,
      calculate_ma_pos _ _ hlong, bind_ok, List.getLast?_eq_getLast_of_ne_nil hne]
    split
    · exact ⟨_, rfl, rfl, rfl⟩
    · split
      · exact ⟨_, rfl, rfl, rfl⟩
      · exact ⟨_, rfl, rfl, rfl⟩

theorem foldlM_ok_inv {σ α : Type} (Inv : σ → Prop) (f : σ → α → Except Unit σ)
    (hf : ∀ s a, Inv s → ∃ s', f s a = .ok s' ∧ Inv s') :
    ∀ (l : List α) (s : σ), Inv s → ∃ s', l.foldlM f s = .ok s' ∧ Inv s' := by
  intro l
  induction l with
  | nil => intro s hs; exact ⟨s, rfl, hs⟩
  | cons a rest ih =>
    intro s hs
    obtain ⟨s1, h1, hs1⟩ := hf s a hs
    obtain ⟨s2, h2, hs2⟩ := ih s1 hs1
    refine ⟨s2, ?_, hs2⟩
    rw [List.foldlM_cons, h1, bind_ok, h2]

theorem sharpe_step_ok {β : Type} (vol d num : ℚ) (k : ℚ → Except Unit β)
    (hd : 0 < vol → vol * d ≠ 0) (hk : ∀ x, ∃ b, k x = .ok b) :
    ∃ b, (if 0 < vol then pydiv num (vol * d) >>= k else Except.ok 0 >>= k) =
      .ok b := by
  by_cases hvol : 0 < vol
  · rw [if_pos hvol]
    simp only [pydiv, if_neg (hd hvol), bind_ok]
    exact hk _
  · rw [if_neg hvol, bind_ok]
    exact hk 0

theorem backtestStep_ok (sqrt : ℚ → ℚ) (gen : String → List OHLC)
    (a : String) (rest : List String) (start_date : ℤ) (var_window : ℤ)
    (confidence_level : ℚ) (st : LoopState) (day : ℕ)
    (hs : 0 < st.strat.short_period) (hl : 0 < st.strat.long_period) :
    ∃ st', backtestStep sqrt gen (a :: rest) start_date var_window confidence_level
        st day = .ok st' ∧
      0 < st'.strat.short_period ∧ 0 < st'.strat.long_period := by
  simp only [backtestStep, bind_ok]
  by_cases hday : day < (gen a).length
  · obtain ⟨out, hout, ho1, ho2⟩ :=
      generate_signals_ok st.strat ((gen a).take (day + 1)) hs hl
    obtain ⟨sigs, strat2⟩ := out
    rw [if_pos hday, hout]
    simp only [bind_ok]
    exact ⟨_, rfl, by simpa using ho1 ▸ hs, by simpa using ho2 ▸ hl⟩
  · rw [if_neg hday]
    exact ⟨_, rfl, hs, hl⟩

/-- Counterexample to C7 as stated over every input configuration including
`initial_cash = 0`: at the end of the run the total-return computation
`((final_value - initial_cash) / initial_cash) * 100` divides by
`initial_cash` without a guard, so with zero initial cash the run raises
`ZeroDivisionError` instead of yielding 0.0. -/
theorem run_backtest_zero_cash_error :
    run_backtest id (fun _ => []) [] 0 0 0 ⟨10, 30, 100, false⟩ 30 0.95 =
      .error () := rfl

/-- C7 (amended: non-empty asset list, strictly positive initial cash,
positive strategy periods, non-zero bar closes, positivity-preserving
square root): the backtest run raises no exception — every other division
is guarded to yield 0.0 on a zero or non-positive base. -/
theorem run_backtest_no_exception (sqrt : ℚ → ℚ) (gen : String → List OHLC)
    (assets : List String) (start_date : ℤ) (days : ℕ) (initial_cash : ℚ)
    (strategy : Strategy) (var_window : ℤ) (confidence_level : ℚ)
    (hassets : assets ≠ []) (hcash : 0 < initial_cash)
    (hshort : 0 < strategy.short_period) (hlong : 0 < strategy.long_period)
    (hclose : ∀ a ∈ assets, ∀ b ∈ gen a, b.close ≠ 0)
    (hsqrt : ∀ q : ℚ, 0 < q → 0 < sqrt q) :
    ∃ report, run_backtest sqrt gen assets start_date days initial_cash strategy
        var_window confidence_level = .ok report := by
  obtain ⟨a, arest, rfl⟩ : ∃ a arest, assets = a :: arest := by
    cases assets with
    | nil => exact absurd rfl hassets
    | cons a r => exact ⟨a, r, rfl⟩
  obtain ⟨rs, hrs⟩ := mapM_ok (fun x => calculate_daily_returns (gen x)) (a :: arest)
    (fun x hx => calculate_daily_returns_ok (gen x) (hclose x hx))
  obtain ⟨stN, hstN, hinv1, hinv2⟩ :=
    foldlM_ok_inv (fun st => 0 < st.strat.short_period ∧ 0 < st.strat.long_period)
      (backtestStep sqrt gen (a :: arest) start_date var_window confidence_level)
      (fun s d hi => by
        obtain ⟨s', h', hi'⟩ := backtestStep_ok sqrt gen a arest start_date var_window
          confidence_level s d hi.1 hi.2
        exact ⟨s', h', hi'⟩)
      (List.range' 1 (days - 1))
      { portfolio := Portfolio.init initial_cash,
        portfolio_values := [initial_cash],
        portfolio_returns := [0],
        var_reports := [],
        strat := strategy }
      ⟨hshort, hlong⟩
  have hcash' : initial_cash ≠ 0 := hcash.ne'
  simp only [run_backtest]
  rw [hrs, bind_ok, hstN, bind_ok]
  rw [show pydiv (stN.portfolio_values.getLastD 0 - initial_cash) initial_cash =
        Except.ok ((stN.portfolio_values.getLastD 0 - initial_cash) / initial_cash) from by
      simp [pydiv, hcash']]
  rw [bind_ok]
  apply sharpe_step_ok
  · intro hv
    exact (mul_pos hv (hsqrt 252 (by norm_num))).ne'
  · intro x
    exact ⟨_, rfl⟩

/-- Witness for C7 (amended) at one asset with no bars, three days,
cash 100. -/
theorem run_backtest_no_exception_witness :
    run_backtest id (fun _ => []) ["A"] 0 3 100 ⟨1, 2, 100, false⟩ 30 0.95 ≠
      Except.error () := by
  obtain ⟨r, hr⟩ := run_backtest_no_exception id (fun _ => []) ["A"] 0 3 100
    ⟨1, 2, 100, false⟩ 30 0.95 (by simp) (by norm_num) (by norm_num) (by norm_num)
    (by simp) (fun _ hq => hq)
  rw [hr]
  simp

/-- C9: the engine is a pure function of its inputs — two runs on the same
fixed bar sequences (and identical parameters, square root, strategy
configuration) produce identical `BacktestReport` values. -/
theorem run_backtest_deterministic (sqrt : ℚ → ℚ) (gen₁ gen₂ : String → List OHLC)
    (assets : List String) (start_date : ℤ) (days : ℕ) (initial_cash : ℚ)
    (strategy : Strategy) (var_window : ℤ) (confidence_level : ℚ)
    (hgen : ∀ x, gen₁ x = gen₂ x) :
    run_backtest sqrt gen₁ assets start_date days initial_cash strategy var_window
        confidence_level =
      run_backtest sqrt gen₂ assets start_date days initial_cash strategy var_window
        confidence_level := by
  rw [funext hgen]

/-- Witness for C9 at a concrete configuration. -/
theorem run_backtest_deterministic_witness :
    run_backtest id (fun _ => []) ["A"] 0 3 100 ⟨1, 2, 100, false⟩ 30 0.95 =
      run_backtest id (fun _ => []) ["A"] 0 3 100 ⟨1, 2, 100, false⟩ 30 0.95 :=
  run_backtest_deterministic id (fun _ => []) (fun _ => []) ["A"] 0 3 100
    ⟨1, 2, 100, false⟩ 30 0.95 (fun _ => rfl)

end BacktestVaR
